import Mathlib

/-!
Verification of the msm chess-data extraction scripts.

This file gives a shallow embedding of the two components the specification
talks about:

* `getimport.py` — the text-import pipeline (`extract_players_from_text`):
  JSON-recovery salvage of truncated model output, per-record
  normalization/validation, and the two-stage deduplication;
* `m.py` — the year-table scraper: per-row game extraction, opponent-rating
  extraction from a tournament standings row, per-unit error isolation, and
  the final output assembly.

Python values flowing through `json.loads` are modelled by `JVal`
(floats are not needed by any of the code paths under study and are left
out; JSON numbers are modelled as integers).  Python `str`/`int`/truthiness
semantics are modelled by `pyStr`, `pyInt?` and `truthy` below.
-/

/-- JSON-like values as produced by `json.loads` in `getimport.py`
(`None`, `bool`, `int`, `str`, `list`, `dict`). -/
inductive JVal where
  | null : JVal
  | bool : Bool → JVal
  | int : Int → JVal
  | str : String → JVal
  | arr : List JVal → JVal
  | obj : List (String × JVal) → JVal

/-- Python truthiness (`bool(v)`) of a `JVal`. -/
def truthy : JVal → Bool
  | .null => false
  | .bool b => b
  | .int n => n != 0
  | .str s => s != ""
  | .arr l => !l.isEmpty
  | .obj l => !l.isEmpty

/-- Fuel-driven digit expansion; `natDigits` always supplies enough fuel. -/
def natDigitsF : Nat → Nat → List Char
  | 0, _ => []
  | f + 1, n =>
    if n < 10 then [Char.ofNat (48 + n)]
    else natDigitsF f (n / 10) ++ [Char.ofNat (48 + n % 10)]

/-- Decimal digits of a natural number, most significant first
(the characters of Python `str(n)` for `n ≥ 0`). -/
def natDigits (n : Nat) : List Char := natDigitsF (n + 1) n

/-- Characters of Python `str(n)` for an integer `n`. -/
def intChars (n : Int) : List Char :=
  if n < 0 then '-' :: natDigits (-n).toNat else natDigits n.toNat

/-- Numeric value of a list of decimal digit characters. -/
def natOfDigits (l : List Char) : Nat :=
  l.foldl (fun a c => a * 10 + (c.toNat - 48)) 0

mutual
/-- Python `repr` of a `JVal` (string escaping inside `repr` of a `str`
is elided: no code path under study reprs a string containing a quote). -/
def pyRepr : JVal → String
  | .null => "None"
  | .bool b => if b then "True" else "False"
  | .int n => ⟨intChars n⟩
  | .str s => "'" ++ s ++ "'"
  | .arr l => "[" ++ String.intercalate ", " (pyReprList l) ++ "]"
  | .obj l => "\x7b" ++ String.intercalate ", " (pyReprObj l) ++ "\x7d"

def pyReprList : List JVal → List String
  | [] => []
  | v :: vs => pyRepr v :: pyReprList vs

def pyReprObj : List (String × JVal) → List String
  | [] => []
  | (k, v) :: vs => ("'" ++ k ++ "': " ++ pyRepr v) :: pyReprObj vs
end

/-- Python `str(v)` of a `JVal` (scalar cases inlined so that they
reduce definitionally; containers defer to `pyRepr`). -/
def pyStr : JVal → String
  | .str s => s
  | .null => "None"
  | .bool b => if b then "True" else "False"
  | .int n => ⟨intChars n⟩
  | .arr l => pyRepr (.arr l)
  | .obj l => pyRepr (.obj l)

/-- Leading-whitespace removal on a character list. -/
def dropWs (l : List Char) : List Char := l.dropWhile Char.isWhitespace

/-- Python `str.strip()` on a character list. -/
def pyStripCh (l : List Char) : List Char := (dropWs (dropWs l.reverse).reverse)

/-- Python `str.strip()` on a string. -/
def pyStrip (s : String) : String := ⟨pyStripCh s.toList⟩

/-- Helper for `pyWords`: accumulates the current word (reversed). -/
def pyWordsAux : List Char → List Char → List (List Char)
  | [], cur => if cur = [] then [] else [cur.reverse]
  | c :: cs, cur =>
    if c.isWhitespace then
      if cur = [] then pyWordsAux cs [] else cur.reverse :: pyWordsAux cs []
    else pyWordsAux cs (c :: cur)

/-- Python `str.split()` with no separator: maximal runs of
non-whitespace characters. -/
def pyWords (l : List Char) : List (List Char) := pyWordsAux l []

/-- Python `' '.join(words)` on character lists. -/
def joinWords (ws : List (List Char)) : List Char := List.intercalate [' '] ws

/-- Python `s.isdigit()` (ASCII model). -/
def pyIsdigit (l : List Char) : Bool := !l.isEmpty && l.all Char.isDigit

/-- Python `int(v)` on a `JVal`, `none` when `int()` would raise
(underscore separators and non-ASCII digits are not modelled: no input
under study uses them). -/
def pyInt? : JVal → Option Int
  | .int n => some n
  | .bool b => some (if b then 1 else 0)
  | .str s =>
    match pyStripCh s.toList with
    | '-' :: ds => if pyIsdigit ds then some (-(natOfDigits ds : Int)) else none
    | '+' :: ds => if pyIsdigit ds then some (natOfDigits ds : Int) else none
    | ds => if pyIsdigit ds then some (natOfDigits ds : Int) else none
  | _ => none

/-- Python `d.get(k)` on a dict modelled as an association list:
`JVal.null` when the key is missing (Python returns `None`). -/
def pyGet (fields : List (String × JVal)) (k : String) : JVal :=
  match fields.find? (fun kv => kv.1 = k) with
  | some kv => kv.2
  | none => .null

/-- Python `d.get(k, default)` on a dict: the default only applies when
the key is missing, a stored `None` is returned as-is. -/
def pyGetD (fields : List (String × JVal)) (k : String) (d : JVal) : JVal :=
  match fields.find? (fun kv => kv.1 = k) with
  | some kv => kv.2
  | none => d

/-- Python `a or b` (returns the first operand when truthy). -/
def pyOr (a b : JVal) : JVal := if truthy a then a else b

/-!
## getimport.py — `extract_players_from_text`, normalization and dedup
-/

/-- Replacement of `re.sub(r'[.,-]', ' ', ·)` (first-pass normalization,
getimport.py line 141). -/
def punct1 (c : Char) : Char := if c = '.' ∨ c = ',' ∨ c = '-' then ' ' else c

/-- Replacement of `re.sub(r'[.,]', ' ', ·)` (second-pass normalization,
getimport.py line 200). -/
def punct2 (c : Char) : Char := if c = '.' ∨ c = ',' then ' ' else c

/-- First-pass name normalization (getimport.py lines 140-142):
`' '.join(name.split()).lower()`, then `[.,-]` to spaces, then
`' '.join(·.split())`. -/
def normalizedName (name : String) : String :=
  let n1 := (joinWords (pyWords name.toList)).map Char.toLower
  let n2 := n1.map punct1
  ⟨joinWords (pyWords n2)⟩

/-- USCF-id normalization (getimport.py lines 134-138): zero-placeholder
ids become `None`; a falsy raw value is kept unchanged. -/
def uscfIdVal (p : List (String × JVal)) : JVal :=
  if truthy (pyGet p "uscf_id") then
    if pyStrip (pyStr (pyGet p "uscf_id")) = "00000" ∨
        pyStrip (pyStr (pyGet p "uscf_id")) = "0000" ∨
        pyStrip (pyStr (pyGet p "uscf_id")) = "0" ∨
        pyStrip (pyStr (pyGet p "uscf_id")) = ""
    then .null
    else .str (pyStrip (pyStr (pyGet p "uscf_id")))
  else pyGet p "uscf_id"

/-- Skip test of getimport.py line 130 (restricted to dict records):
the name must be truthy and non-blank after `str(·).strip()`. -/
def nameOk (p : List (String × JVal)) : Bool :=
  truthy (pyGet p "name") && pyStrip (pyStr (pyGet p "name")) != ""

/-- `name = str(player['name']).strip()` (getimport.py line 133). -/
def nameOf (p : List (String × JVal)) : String := pyStrip (pyStr (pyGet p "name"))

/-- First-pass dedup key (getimport.py line 144). -/
def firstKey (p : List (String × JVal)) : String :=
  if truthy (uscfIdVal p)
  then normalizedName (nameOf p) ++ "|" ++ pyStr (uscfIdVal p)
  else normalizedName (nameOf p)

/-- Helper for `pySplitComma`: accumulates the current piece (reversed). -/
def pySplitCommaAux : List Char → List Char → List String
  | [], cur => [⟨cur.reverse⟩]
  | c :: cs, cur =>
    if c = ',' then (⟨cur.reverse⟩ : String) :: pySplitCommaAux cs []
    else pySplitCommaAux cs (c :: cur)

/-- Python `s.split(',')`: pieces between commas, empties kept
(`''.split(',') == ['']`). -/
def pySplitComma (s : String) : List String := pySplitCommaAux s.toList []

/-- Membership test `byes in [None, "0", 0]` of getimport.py line 151
(Python `==` semantics: `False == 0` holds, `True` matches nothing here). -/
def byesIn (v : JVal) : Bool :=
  match v with
  | .null => true
  | .str s => s == "0"
  | .int n => n == 0
  | .bool b => !b
  | _ => false

/-- `','.join(map(str, rounds)) if rounds else None` (getimport.py
line 158). -/
def mkByes (rounds : List Int) : JVal :=
  match rounds with
  | [] => .null
  | _ => .str (String.intercalate "," (rounds.map (fun n => (⟨intChars n⟩ : String))))

/-- Filter and value of the comprehensions in getimport.py lines 153/155:
an element is kept when `str(r).strip().isdigit()` and the parsed value is
positive; the kept value `int(r)` coincides with the numeric value of the
digits of `str(r).strip()` for every element passing the `isdigit` filter
(integers and all-digit strings). -/
def byeRound? (v : JVal) : Option Int :=
  if pyIsdigit (pyStripCh (pyStr v).toList)
      ∧ 0 < natOfDigits (pyStripCh (pyStr v).toList)
  then some (natOfDigits (pyStripCh (pyStr v).toList) : Int) else none

/-- Bye-rounds normalization (getimport.py lines 149-158); `none` models
the uncaught `TypeError` raised by `int(byes)` on a dict value. -/
def byesNormalized (byes : JVal) : Option JVal :=
  if truthy byes && !byesIn byes then
    match byes with
    | .arr xs => some (mkByes (xs.filterMap byeRound?))
    | .str s => some (mkByes ((pySplitComma s).filterMap (fun r => byeRound? (.str r))))
    | .int n => some (mkByes (if 0 < n then [n] else []))
    | .bool b => some (mkByes (if 0 < (if b then (1 : Int) else 0) then [if b then (1 : Int) else 0] else []))
    | _ => none
  else some .null

/-- Rating validation (getimport.py lines 160-167): integer coercion,
out-of-range or non-coercible values become `None`. -/
def ratingNormalized (v : JVal) : JVal :=
  match v with
  | .null => .null
  | _ =>
    match pyInt? v with
    | some n => if 0 ≤ n ∧ n ≤ 3000 then .int n else .null
    | none => .null

/-- Grade validation (getimport.py lines 169-174): `'0'`/empty raw values
become `None`, failed coercions become `None`; no range check is made. -/
def gradeNormalized (v : JVal) : JVal :=
  match v with
  | .null => .null
  | _ =>
    if pyStrip (pyStr v) = "0" ∨ pyStrip (pyStr v) = "" then .null
    else
      match pyInt? v with
      | some n => .int n
      | none => .null

/-- Python `v or None`. -/
def orNone (v : JVal) : JVal := pyOr v .null

/-- FIDE-id normalization (getimport.py line 182). -/
def fideIdVal (p : List (String × JVal)) : JVal :=
  if truthy (pyGet p "fide_id")
  then .str (pyStrip (pyStr (pyGet p "fide_id")))
  else .null

/-- `player.get('team') or player.get('team_name') or None` (line 187). -/
def teamNameVal (p : List (String × JVal)) : JVal :=
  pyOr (pyGet p "team") (pyOr (pyGet p "team_name") .null)

/-- Field list of the `validated_player` dict of getimport.py
lines 176-192, in source field order, with the already-computed
bye-rounds value `ibr`. -/
def validatedFields (p : List (String × JVal)) (ibr : JVal) :
    List (String × JVal) :=
  [("name", .str (nameOf p)),
   ("status", pyGetD p "status" (.str "active")),
   ("section", orNone (pyGet p "section")),
   ("rating", ratingNormalized (pyGet p "rating")),
   ("uscf_id", uscfIdVal p),
   ("fide_id", fideIdVal p),
   ("state", orNone (pyGet p "state")),
   ("city", orNone (pyGet p "city")),
   ("email", orNone (pyGet p "email")),
   ("phone", orNone (pyGet p "phone")),
   ("team_name", teamNameVal p),
   ("school", orNone (pyGet p "school")),
   ("grade", gradeNormalized (pyGet p "grade")),
   ("intentional_bye_rounds", ibr),
   ("notes", orNone (pyGet p "notes"))]

/-- The `validated_player` dict of getimport.py lines 176-192; `none`
models the uncaught exception from `byesNormalized`. -/
def validatedRecord (p : List (String × JVal)) : Option JVal :=
  match byesNormalized (pyGet p "byes") with
  | none => none
  | some ibr => some (.obj (validatedFields p ibr))

/-- The first validation/dedup loop of getimport.py lines 126-194:
per-record validation plus dedup on `player_key` tracked in `seen`;
`none` models an uncaught exception aborting the whole extraction. -/
def firstPass : List JVal → List String → Option (List JVal)
  | [], _ => some []
  | p :: rest, seen =>
    match p with
    | .obj fields =>
      if nameOk fields then
        let k := firstKey fields
        if k ∈ seen then firstPass rest seen
        else
          match validatedRecord fields with
          | none => none
          | some r =>
            match firstPass rest (k :: seen) with
            | none => none
            | some out => some (r :: out)
      else firstPass rest seen
    | _ => firstPass rest seen

/-- Ascending insertion into a sorted list of strings. -/
def insSorted (s : String) : List String → List String
  | [] => [s]
  | t :: ts => if s ≤ t then s :: t :: ts else t :: insSorted s ts

/-- Ascending sort on strings, modelling Python `sorted`. -/
def sortStrings : List String → List String
  | [] => []
  | s :: ss => insSorted s (sortStrings ss)

/-- Name tokens of the second dedup pass (getimport.py lines 200-201):
lowercase, `[.,]` to spaces, whitespace split, tokens of length > 1. -/
def nameTokens (name : String) : List String :=
  ((pyWords ((name.toList.map Char.toLower).map punct2)).map
    (fun w => (⟨w⟩ : String))).filter (fun p => p.length > 1)

/-- Second-pass dedup key (getimport.py lines 200-204). -/
def secondKey (p : List (String × JVal)) : String :=
  if truthy (pyGet p "uscf_id")
  then String.intercalate " " (sortStrings (nameTokens (pyStr (pyGet p "name"))))
    ++ "|" ++ pyStr (pyGet p "uscf_id")
  else String.intercalate " " (sortStrings (nameTokens (pyStr (pyGet p "name"))))

/-- Second-pass key of an arbitrary record value (first-pass output
records are always dicts). -/
def secondKeyOf : JVal → String
  | .obj f => secondKey f
  | _ => ""

/-- The final dedup loop of getimport.py lines 196-208. -/
def secondPass : List JVal → List String → List JVal
  | [], _ => []
  | r :: rest, seen =>
    if secondKeyOf r ∈ seen then secondPass rest seen
    else r :: secondPass rest (secondKeyOf r :: seen)

/-- The normalization+dedup step of `extract_players_from_text`
(getimport.py lines 126-208). -/
def validateAndDedup (players : List JVal) : Option (List JVal) :=
  match firstPass players [] with
  | none => none
  | some vp => some (secondPass vp [])

/-!
## getimport.py — JSON-recovery truncation salvage
-/

/-- Index (from the left) of the last occurrence of `c`, if any
(Python `str.rfind`). -/
def lastIdx? (c : Char) : List Char → Option Nat
  | [] => none
  | x :: xs =>
    match lastIdx? c xs with
    | some i => some (i + 1)
    | none => if x = c then some 0 else none

/-- Python `str.rstrip()`. -/
def pyRstrip (l : List Char) : List Char := (dropWs l.reverse).reverse

/-- `re.sub(r',\s*$', '', t)` on an already-rstripped text: drops one
trailing comma when present. -/
def dropTrailingComma (l : List Char) : List Char :=
  match l.reverse with
  | ',' :: rest => rest.reverse
  | _ => l

/-- Truncated-array salvage of getimport.py lines 90-96: when `'['`
occurrences exceed `']'` occurrences, cut back to the last `'}'` (when one
exists), rstrip, strip one trailing comma, and append `']'`; in every
other case the text is left unchanged. -/
def salvageTruncation (s : String) : String :=
  let cs := s.toList
  if cs.count ']' < cs.count '[' then
    match lastIdx? '}' cs with
    | some i => ⟨dropTrailingComma (pyRstrip (cs.take (i + 1))) ++ [']']⟩
    | none => s
  else s

/-!
## m.py — opponent-rating extraction from a tournament standings row
-/

/-- Word characters of the regex `\b` boundary (`[A-Za-z0-9_]`). -/
def isWordChar (c : Char) : Bool := c.isAlphanum || c == '_'

/-- Fuel-driven scan for the first `\b(\d{3,4})\b` match: walks the text
left to right, and at each maximal digit run whose left neighbour is a
non-word character (or the start) accepts the run when its length is 3 or
4 and its right neighbour is a non-word character (or the end); any other
run can host no match and is skipped whole.  Returns the matched digit
characters. -/
def find34F : Nat → List Char → Bool → Option (List Char)
  | 0, _, _ => none
  | _ + 1, [], _ => none
  | f + 1, c :: cs, prevWord =>
    if c.isDigit && !prevWord then
      let run := (c :: cs).takeWhile Char.isDigit
      let rest := (c :: cs).dropWhile Char.isDigit
      if (run.length = 3 ∨ run.length = 4) &&
          (rest.isEmpty || !isWordChar (rest.headD ' ')) then some run
      else find34F f cs (isWordChar c)
    else find34F f cs (isWordChar c)

/-- First `\b(\d{3,4})\b` match in a text (`re.search` of m.py
lines 260 and 276). -/
def find34 (l : List Char) : Option (List Char) := find34F (l.length + 1) l false

/-- Fallback scan over the row's cells (m.py lines 271-282): the first
cell whose first 3-4 digit token parses into `[100, 3000]` supplies the
rating; an out-of-range token moves on to the next cell. -/
def scanCells : List String → Option Int
  | [] => none
  | c :: cs =>
    match find34 c.toList with
    | some tok =>
      if 100 ≤ (natOfDigits tok : Int) ∧ (natOfDigits tok : Int) ≤ 3000
      then some (natOfDigits tok : Int) else scanCells cs
    | none => scanCells cs

/-- Opponent-rating extraction from a standings row (m.py lines 254-282):
first 3-4 digit token of the whole row text when it lies in `[100, 3000]`,
otherwise the per-cell fallback scan. -/
def extractOpponentRating (rowText : String) (cells : List String) : Option Int :=
  match find34 rowText.toList with
  | some tok =>
    if 100 ≤ (natOfDigits tok : Int) ∧ (natOfDigits tok : Int) ≤ 3000
    then some (natOfDigits tok : Int) else scanCells cells
  | none => scanCells cells

/-!
## m.py — per-row game extraction, per-year units, output assembly
-/

/-- Opponent link of a game row's fourth cell (m.py lines 184-205):
inner text of the `div.font-names` container (when present) and the
anchor's `href`. -/
structure OppLink where
  nameText : Option String
  href : Option String

/-- Tournament link of a game row's sixth cell (m.py lines 211-219). -/
structure TournLink where
  span : String
  href : Option String

/-- One row of the discrete games table, as read by m.py lines 146-313.
`pageClosed` models `page.title()` raising (lines 149-153, which breaks
the row loop); `fails` models any other exception inside the per-row
`try` (lines 316-318, which skips the row); `ratingSource` models the
opponent's row on the tournament page (`none` when navigation fails or
finds no row, lines 222-294). -/
structure DomRow where
  pageClosed : Bool
  fails : Bool
  cells : List String
  oppLink : Option OppLink
  tourn : Option TournLink
  ratingSource : Option (String × List String)

/-- Color mapping of m.py lines 174-181. -/
def colorOf (colorText : String) : String :=
  if colorText = "W" ∨ colorText.toList.contains 'W' then "White"
  else if colorText = "B" ∨ colorText.toList.contains 'B' then "Black"
  else "Unknown"

/-- Opponent name from the link (m.py lines 187-200). -/
def oppNameOf : Option OppLink → String
  | none => "Unknown"
  | some l =>
    match l.nameText with
    | none => "Unknown"
    | some t => if pyStrip t ≠ "" then ⟨joinWords (pyWords t.toList)⟩ else "Unknown"

/-- Opponent USCF id from the link href (m.py lines 202-205):
the trailing path segment. -/
def oppIdOf : Option OppLink → Option String
  | none => none
  | some l => l.href.map (fun h => (h.splitOn "/").getLastD "")

/-- Tournament name and absolute URL (m.py lines 211-219); hrefs matched
by the `a[href^="/event/"]` selector are site-absolute paths, so
`urljoin(base_url, href)` prefixes the base URL. -/
def tournOf : Option TournLink → String × Option String
  | none => ("Unknown Tournament", none)
  | some t => (pyStrip t.span, t.href.map (fun h => "https://ratings.uschess.org" ++ h))

/-- Per-row game extraction (m.py lines 146-318): `none` when the row is
skipped (exception, short row, or header-like sentinel result), otherwise
the game dict of lines 297-311 in source field order. -/
def processRow (playerName playerId year : String) (row : DomRow) : Option JVal :=
  if row.fails then none
  else if row.cells.length < 6 then none
  else
    let result := pyStrip (row.cells.getD 0 "")
    if result = "Result" ∨ result = "Year" ∨ result = "" then none
    else
      let color := colorOf (pyStrip (row.cells.getD 1 ""))
      let oppName := oppNameOf row.oppLink
      let oppId := oppIdOf row.oppLink
      let date := pyStrip (row.cells.getD 4 "")
      let tournName := (tournOf row.tourn).1
      let tournUrl := (tournOf row.tourn).2
      let oppRating : Option Int :=
        match tournUrl, oppId with
        | some u, some i =>
          if u ≠ "" ∧ i ≠ "" then
            match row.ratingSource with
            | some (rt, rcs) => extractOpponentRating rt rcs
            | none => none
          else none
        | _, _ => none
      some (.obj
        [("tournament_name", .str tournName),
         ("round", .null),
         ("result", .str result),
         ("opponent_pairing_number", .null),
         ("opponent_name", .str oppName),
         ("opponent_uscf_id", match oppId with | some i => .str i | none => .null),
         ("opponent_rating", match oppRating with | some r => .int r | none => .null),
         ("color", .str color),
         ("player_name", .str playerName),
         ("player_uscf_id", .str playerId),
         ("player_rating", .null),
         ("date", .str date),
         ("year", .str year)])

/-- The row loop of m.py lines 146-318: a `pageClosed` row breaks the
loop, a failing or sentinel row contributes nothing. -/
def processRows (playerName playerId year : String) : List DomRow → List JVal
  | [] => []
  | r :: rs =>
    if r.pageClosed then []
    else
      match processRow playerName playerId year r with
      | some g => g :: processRows playerName playerId year rs
      | none => processRows playerName playerId year rs

/-- One year row of the statistics table, as consumed by m.py
lines 63-345.  `raisesEarly` models an exception reaching the per-year
handler of lines 343-345 before any game row is processed (after the row
loop starts, every statement is wrapped in its own narrower handler). -/
structure YearUnit where
  raisesEarly : Bool
  yearText : String
  buttonFound : Bool
  clickFails : Bool
  tableFound : Bool
  rows : List DomRow

/-- Games contributed by one year unit (m.py lines 63-345): every skip
path (exception, non-digit year, missing button, failed click, missing
games table) contributes zero games. -/
def processYear (playerName playerId : String) (u : YearUnit) : List JVal :=
  if u.raisesEarly then []
  else if !pyIsdigit (pyStrip u.yearText).toList then []
  else if !u.buttonFound then []
  else if u.clickFails then []
  else if !u.tableFound then []
  else processRows playerName playerId (pyStrip u.yearText) u.rows

/-- Accumulation of `all_games` across the year loop (m.py lines 59-345). -/
def processYears (playerName playerId : String) : List YearUnit → List JVal
  | [] => []
  | u :: us => processYear playerName playerId u ++ processYears playerName playerId us

/-- `games_dict` numbering (m.py lines 348-350): 1-based sequential
string keys in list order. -/
def numberGames (i : Nat) : List JVal → List (String × JVal)
  | [] => []
  | g :: gs => ((⟨natDigits i⟩ : String), g) :: numberGames (i + 1) gs

/-- Output assembly (m.py lines 347-363): number the accumulated games
sequentially from "1" in list order — no sorting — and wrap them with the
player metadata (rating hard-coded `None`). -/
def assembleOutput (playerName playerId : String) (allGames : List JVal) : JVal :=
  .obj
    [("player", .obj
       [("name", .str playerName),
        ("uscf_id", .str playerId),
        ("rating", .null)]),
     ("games", .obj (numberGames 1 allGames))]

/-- The whole year-table scrape as emitted by the final iteration's
print (m.py lines 59-363). -/
def scrapeDocument (playerName playerId : String) (units : List YearUnit) : JVal :=
  assembleOutput playerName playerId (processYears playerName playerId units)

/-!
## Accessors and specification-side definitions

The `spec`-prefixed definitions below follow the specification's words
(not the source); they exist to compare the claimed behaviour with the
embedded code.
-/

/-- Field access on a record value (missing key or non-dict gives null,
as every consumer of these records treats absence). -/
def getField : JVal → String → JVal
  | .obj f, k => pyGet f k
  | _, _ => .null

/-- Skip test plus first-pass key of a raw input record (getimport.py
lines 130 and 144): `none` when the record is dropped before keying. -/
def recKey? : JVal → Option String
  | .obj f => if nameOk f then some (firstKey f) else none
  | _ => none

/-- Specification-side date key: parse `"YYYY-MM-DD"`; on parse failure
fall back to the year field; then to a zero epoch.  Larger keys are more
recent. -/
def specParseYMD : List Char → Option Nat
  | [y1, y2, y3, y4, '-', m1, m2, '-', d1, d2] =>
    if [y1, y2, y3, y4, m1, m2, d1, d2].all Char.isDigit then
      some (natOfDigits [y1, y2, y3, y4] * 10000 +
        natOfDigits [m1, m2] * 100 + natOfDigits [d1, d2])
    else none
  | _ => none

/-- Specification-side date key of a game record (date, else year, else
zero epoch). -/
def specDateKey (g : JVal) : Nat :=
  match specParseYMD (pyStr (getField g "date")).toList with
  | some k => k
  | none =>
    let y := (pyStr (getField g "year")).toList
    if pyIsdigit y then natOfDigits y * 10000 else 0

/-- Specification-side acceptance test for a rating token: in
`[100, 3000]` and not textually equal to the already-known pairing
number. -/
def specTokenOk (pairing : String) (tok : List Char) : Bool :=
  (100 ≤ natOfDigits tok && natOfDigits tok ≤ 3000) && ((⟨tok⟩ : String) != pairing)

/-- Specification-side rating extraction (spec 4.1): search the row text
for a 3-4 digit token, accept it only when `specTokenOk`; if that fails,
fall back to scanning column indices 1 and 2 for the same pattern. -/
def specRatingExtraction (pairing : String) (rowText : String)
    (cells : List String) : Option Int :=
  let fromCell (c : String) : Option Int :=
    match find34 c.toList with
    | some tok => if specTokenOk pairing tok then some (natOfDigits tok : Int) else none
    | none => none
  match find34 rowText.toList with
  | some tok =>
    if specTokenOk pairing tok then some (natOfDigits tok : Int)
    else
      match fromCell (cells.getD 1 "") with
      | some n => some n
      | none => fromCell (cells.getD 2 "")
  | none =>
    match fromCell (cells.getD 1 "") with
    | some n => some n
    | none => fromCell (cells.getD 2 "")

/-- Specification-side grade invariant: null or an integer in `[1, 12]`. -/
def specGradeRange (v : JVal) : Prop :=
  v = .null ∨ ∃ g : Int, v = .int g ∧ 1 ≤ g ∧ g ≤ 12

/-- Entries of the "games" object of an emitted document. -/
def gamesEntries (doc : JVal) : List (String × JVal) :=
  match getField doc "games" with
  | .obj l => l
  | _ => []

/-!
## Helper lemmas: whitespace stripping
-/

theorem dropWs_cons_of_ws {c : Char} (h : c.isWhitespace = true) (l : List Char) :
    dropWs (c :: l) = dropWs l := by
  simp [dropWs, List.dropWhile, h]

theorem dropWs_cons_of_not {c : Char} (h : c.isWhitespace = false) (l : List Char) :
    dropWs (c :: l) = c :: l := by
  simp [dropWs, List.dropWhile, h]

theorem dropWs_idem (l : List Char) : dropWs (dropWs l) = dropWs l := by
  induction l with
  | nil => rfl
  | cons c cs ih =>
    cases h : c.isWhitespace with
    | false => rw [dropWs_cons_of_not h, dropWs_cons_of_not h]
    | true => rw [dropWs_cons_of_ws h, ih]

theorem dropWs_length_le (l : List Char) : (dropWs l).length ≤ l.length :=
  (List.dropWhile_suffix _).sublist.length_le

theorem dropWs_eq_self_of_prefix {p l : List Char} (hp : p <+: l)
    (h : dropWs l = l) : dropWs p = p := by
  cases p with
  | nil => rfl
  | cons c cs =>
    cases hws : c.isWhitespace with
    | false => exact dropWs_cons_of_not hws cs
    | true =>
      exfalso
      obtain ⟨t, ht⟩ := hp
      rw [← ht, List.cons_append, dropWs_cons_of_ws hws] at h
      have h1 := dropWs_length_le (cs ++ t)
      have h2 : (dropWs (cs ++ t)).length = (cs ++ t).length + 1 := by
        rw [h]; simp
      omega

theorem dropWs_eq_self_of_all {l : List Char}
    (h : ∀ c ∈ l, c.isWhitespace = false) : dropWs l = l := by
  cases l with
  | nil => rfl
  | cons c cs => exact dropWs_cons_of_not (h c (by simp)) cs

theorem pyStripCh_idem (l : List Char) : pyStripCh (pyStripCh l) = pyStripCh l := by
  unfold pyStripCh
  have hyRev : ((dropWs l.reverse).reverse).reverse = dropWs l.reverse := by
    simp
  have h1 : dropWs ((dropWs l.reverse).reverse).reverse
      = ((dropWs l.reverse).reverse).reverse := by
    rw [hyRev]; exact dropWs_idem _
  have h2 : (dropWs ((dropWs l.reverse).reverse)).reverse
      <+: ((dropWs l.reverse).reverse).reverse :=
    List.reverse_prefix.mpr (List.dropWhile_suffix _)
  have h3 := dropWs_eq_self_of_prefix h2 h1
  rw [h3, List.reverse_reverse, dropWs_idem]

theorem pyStripCh_eq_self_of_all {l : List Char}
    (h : ∀ c ∈ l, c.isWhitespace = false) : pyStripCh l = l := by
  unfold pyStripCh
  have h1 : dropWs l.reverse = l.reverse :=
    dropWs_eq_self_of_all (by intro c hc; exact h c (List.mem_reverse.mp hc))
  rw [h1, List.reverse_reverse, dropWs_eq_self_of_all h]

theorem toList_mk (l : List Char) : (⟨l⟩ : String).toList = l := rfl

theorem pyStrip_idem (s : String) : pyStrip (pyStrip s) = pyStrip s := by
  show (⟨pyStripCh (⟨pyStripCh s.toList⟩ : String).toList⟩ : String) = _
  rw [toList_mk, pyStripCh_idem]
  rfl

/-!
## Helper lemmas: decimal digit strings
-/

theorem char_digit_props {k : Nat} (hk : k < 10) :
    (Char.ofNat (48 + k)).isDigit = true ∧ (Char.ofNat (48 + k)).isWhitespace = false := by
  interval_cases k <;> exact ⟨by decide, by decide⟩

theorem natDigitsF_congr : ∀ (n f₁ f₂ : Nat), n < f₁ → n < f₂ →
    natDigitsF f₁ n = natDigitsF f₂ n := by
  intro n
  induction n using Nat.strong_induction_on with
  | _ n ih =>
    intro f₁ f₂ h₁ h₂
    cases f₁ with
    | zero => omega
    | succ g₁ =>
      cases f₂ with
      | zero => omega
      | succ g₂ =>
        simp only [natDigitsF]
        by_cases h10 : n < 10
        · simp [h10]
        · rw [if_neg h10, if_neg h10]
          have hd : n / 10 < n := Nat.div_lt_self (by omega) (by omega)
          rw [ih (n / 10) hd g₁ g₂ (by omega) (by omega)]

theorem natDigitsF_ne_nil {f n : Nat} (h : n < f) : natDigitsF f n ≠ [] := by
  cases f with
  | zero => omega
  | succ g =>
    simp only [natDigitsF]
    by_cases h10 : n < 10 <;> simp [h10]

theorem natDigitsF_props : ∀ (n f : Nat), n < f →
    ∀ c ∈ natDigitsF f n, c.isDigit = true ∧ c.isWhitespace = false := by
  intro n
  induction n using Nat.strong_induction_on with
  | _ n ih =>
    intro f h c hc
    cases f with
    | zero => omega
    | succ g =>
      simp only [natDigitsF] at hc
      by_cases h10 : n < 10
      · rw [if_pos h10] at hc
        simp at hc
        subst hc
        exact char_digit_props h10
      · rw [if_neg h10] at hc
        rcases List.mem_append.mp hc with h1 | h2
        · have hd : n / 10 < n := Nat.div_lt_self (by omega) (by omega)
          exact ih (n / 10) hd g (by omega) c h1
        · simp at h2
          subst h2
          exact char_digit_props (Nat.mod_lt _ (by omega))

theorem natDigits_props {n : Nat} : ∀ c ∈ natDigits n,
    c.isDigit = true ∧ c.isWhitespace = false :=
  natDigitsF_props n (n + 1) (by omega)

theorem natDigits_ne_nil (n : Nat) : natDigits n ≠ [] :=
  natDigitsF_ne_nil (by omega)

theorem natDigits_eq_zero_iff (n : Nat) : natDigits n = ['0'] ↔ n = 0 := by
  constructor
  · intro h
    unfold natDigits at h
    simp only [natDigitsF] at h
    by_cases h10 : n < 10
    · rw [if_pos h10] at h
      interval_cases n
      · rfl
      all_goals exact absurd h (by decide)
    · rw [if_neg h10] at h
      exfalso
      have hne : natDigitsF n (n / 10) ≠ [] :=
        natDigitsF_ne_nil (Nat.div_lt_self (by omega) (by omega))
      have h2 : (natDigitsF n (n / 10)).length + 1 = 1 := by
        have := congrArg List.length h
        simpa using this
      exact hne (List.eq_nil_of_length_eq_zero (by omega))
  · rintro rfl
    decide

theorem intChars_all_not_ws (n : Int) : ∀ c ∈ intChars n, c.isWhitespace = false := by
  unfold intChars
  by_cases h : n < 0
  · rw [if_pos h]
    intro c hc
    rcases List.mem_cons.mp hc with h1 | h2
    · subst h1; decide
    · exact (natDigits_props c h2).2
  · rw [if_neg h]
    intro c hc
    exact (natDigits_props c hc).2

theorem intChars_ne_nil (n : Int) : intChars n ≠ [] := by
  unfold intChars
  by_cases h : n < 0
  · simp [h]
  · simp [h, natDigits_ne_nil]

theorem intChars_eq_zero_iff (n : Int) : intChars n = ['0'] ↔ n = 0 := by
  unfold intChars
  by_cases h : n < 0
  · rw [if_pos h]
    constructor
    · intro hx
      exact absurd (List.head_eq_of_cons_eq hx) (by decide)
    · intro hx; omega
  · rw [if_neg h]
    rw [natDigits_eq_zero_iff]
    omega

theorem pyStrip_intStr (n : Int) : pyStrip (⟨intChars n⟩ : String) = ⟨intChars n⟩ := by
  show (⟨pyStripCh (⟨intChars n⟩ : String).toList⟩ : String) = _
  rw [toList_mk, pyStripCh_eq_self_of_all (intChars_all_not_ws n)]

theorem intStr_eq_zero_iff (n : Int) : (⟨intChars n⟩ : String) = "0" ↔ n = 0 := by
  rw [String.ext_iff]
  show intChars n = ['0'] ↔ n = 0
  exact intChars_eq_zero_iff n

theorem intStr_ne_empty (n : Int) : (⟨intChars n⟩ : String) ≠ "" := by
  rw [Ne, String.ext_iff]
  show ¬intChars n = []
  exact intChars_ne_nil n

/-!
## Lemmas about the m.py row and unit processing
-/

theorem processRow_of_fails {pn pid y : String} {row : DomRow}
    (h : row.fails = true) : processRow pn pid y row = none := by
  unfold processRow
  rw [if_pos h]

theorem processRow_player_rating {pn pid y : String} {row : DomRow} {g : JVal}
    (h : processRow pn pid y row = some g) :
    getField g "player_rating" = JVal.null := by
  simp only [processRow] at h
  split at h
  · exact absurd h (by simp)
  · split at h
    · exact absurd h (by simp)
    · split at h
      · exact absurd h (by simp)
      · rw [← Option.some.inj h]
        rfl

theorem mem_processRows {pn pid y : String} {rs : List DomRow} {g : JVal}
    (h : g ∈ processRows pn pid y rs) :
    ∃ r ∈ rs, processRow pn pid y r = some g := by
  induction rs with
  | nil => simp [processRows] at h
  | cons r rest ih =>
    unfold processRows at h
    split at h
    · simp at h
    · split at h
      case h_1 g0 hr =>
        rcases List.mem_cons.mp h with h1 | h2
        · exact ⟨r, by simp, by rw [hr, h1]⟩
        · obtain ⟨r1, hr1, hr2⟩ := ih h2
          exact ⟨r1, by simp [hr1], hr2⟩
      case h_2 hr =>
        obtain ⟨r1, hr1, hr2⟩ := ih h
        exact ⟨r1, by simp [hr1], hr2⟩

theorem mem_processYear {pn pid : String} {u : YearUnit} {g : JVal}
    (h : g ∈ processYear pn pid u) :
    ∃ r ∈ u.rows, processRow pn pid (pyStrip u.yearText) r = some g := by
  unfold processYear at h
  split at h
  · simp at h
  · split at h
    · simp at h
    · split at h
      · simp at h
      · split at h
        · simp at h
        · split at h
          · simp at h
          · exact mem_processRows h

theorem processYear_of_raises {pn pid : String} {u : YearUnit}
    (h : u.raisesEarly = true) : processYear pn pid u = [] := by
  unfold processYear
  rw [if_pos h]

theorem mem_processYears {pn pid : String} {us : List YearUnit} {g : JVal}
    (h : g ∈ processYears pn pid us) :
    ∃ u ∈ us, ∃ r ∈ u.rows, processRow pn pid (pyStrip u.yearText) r = some g := by
  induction us with
  | nil => simp [processYears] at h
  | cons u rest ih =>
    unfold processYears at h
    rcases List.mem_append.mp h with h1 | h2
    · obtain ⟨r, hr, hg⟩ := mem_processYear h1
      exact ⟨u, by simp, r, hr, hg⟩
    · obtain ⟨u1, hu1, r, hr, hg⟩ := ih h2
      exact ⟨u1, by simp [hu1], r, hr, hg⟩

theorem mem_numberGames {i : Nat} {gs : List JVal} {kv : String × JVal}
    (h : kv ∈ numberGames i gs) : kv.2 ∈ gs := by
  induction gs generalizing i with
  | nil => simp [numberGames] at h
  | cons g rest ih =>
    unfold numberGames at h
    rcases List.mem_cons.mp h with h1 | h2
    · rw [h1]
      simp
    · exact List.mem_cons_of_mem _ (ih h2)

theorem numberGames_map_snd (i : Nat) (gs : List JVal) :
    (numberGames i gs).map Prod.snd = gs := by
  induction gs generalizing i with
  | nil => rfl
  | cons g rest ih => simp [numberGames, ih]

theorem numberGames_map_fst (i : Nat) (gs : List JVal) :
    (numberGames i gs).map Prod.fst
      = (List.range' i gs.length).map (fun k => (⟨natDigits k⟩ : String)) := by
  induction gs generalizing i with
  | nil => rfl
  | cons g rest ih => simp [numberGames, List.range'_succ, ih]

theorem processRows_cons_skip {pn pid y : String} {r : DomRow} (rs : List DomRow)
    (hpc : r.pageClosed = false) (hf : processRow pn pid y r = none) :
    processRows pn pid y (r :: rs) = processRows pn pid y rs := by
  simp only [processRows, hpc, hf]
  rfl

/-- C1 (counterexample): the output assembler numbers the accumulated
games in list order without any date sort — a list whose second game is
strictly more recent (under the specification's date key) than its first
is emitted with the older game under key "1". -/
theorem assembleOutput_not_date_sorted :
    gamesEntries (assembleOutput "Player" "123"
      [JVal.obj [("date", .str "2015-01-01"), ("year", .str "2015")],
       JVal.obj [("date", .str "2020-06-01"), ("year", .str "2020")]])
    = [("1", JVal.obj [("date", .str "2015-01-01"), ("year", .str "2015")]),
       ("2", JVal.obj [("date", .str "2020-06-01"), ("year", .str "2020")])] ∧
    specDateKey (JVal.obj [("date", .str "2015-01-01"), ("year", .str "2015")])
      < specDateKey (JVal.obj [("date", .str "2020-06-01"), ("year", .str "2020")]) := by
  exact ⟨rfl, by decide⟩

/-- C1 (amended): the output assembler wraps the player metadata (with a
null rating) around the games object, whose entries keep the accumulated
games in list order — no date sort — under consecutive 1-based string
keys "1", "2", .... -/
theorem assembleOutput_numbering (pn pid : String) (gs : List JVal) :
    ∃ entries : List (String × JVal),
      assembleOutput pn pid gs = JVal.obj
        [("player", JVal.obj
           [("name", .str pn), ("uscf_id", .str pid), ("rating", JVal.null)]),
         ("games", JVal.obj entries)] ∧
      entries.map Prod.snd = gs ∧
      entries.map Prod.fst
        = (List.range' 1 gs.length).map (fun k => (⟨natDigits k⟩ : String)) :=
  ⟨numberGames 1 gs, rfl, numberGames_map_snd 1 gs, numberGames_map_fst 1 gs⟩

/-- C8: per-unit and per-row scraping failures are isolated: a game row
whose result cell holds a header-like sentinel ("Result"/"Year"/"")
contributes zero game records; a row in which extraction raises
contributes zero records and leaves the games of sibling rows unchanged;
a year unit in which extraction raises contributes zero records and
leaves the games of sibling units unchanged. -/
theorem scraping_failures_isolated :
    (∀ (pn pid y : String) (row : DomRow),
        (pyStrip (row.cells.getD 0 "") = "Result" ∨
         pyStrip (row.cells.getD 0 "") = "Year" ∨
         pyStrip (row.cells.getD 0 "") = "") →
        processRow pn pid y row = none) ∧
    (∀ (pn pid y : String) (rs1 rs2 : List DomRow) (row : DomRow),
        row.pageClosed = false → row.fails = true →
        processRows pn pid y (rs1 ++ row :: rs2) = processRows pn pid y (rs1 ++ rs2)) ∧
    (∀ (pn pid : String) (us1 us2 : List YearUnit) (u : YearUnit),
        u.raisesEarly = true →
        processYears pn pid (us1 ++ u :: us2) = processYears pn pid (us1 ++ us2)) := by
  refine ⟨?_, ?_, ?_⟩
  · intro pn pid y row hsent
    simp only [processRow]
    by_cases h1 : row.fails = true
    · rw [if_pos h1]
    · rw [if_neg h1]
      by_cases h2 : row.cells.length < 6
      · rw [if_pos h2]
      · rw [if_neg h2, if_pos hsent]
  · intro pn pid y rs1 rs2 row hpc hf
    induction rs1 with
    | nil =>
      simp only [List.nil_append]
      exact processRows_cons_skip rs2 hpc (processRow_of_fails hf)
    | cons r rs ih =>
      simp only [List.cons_append, processRows, List.append_eq, ih]
  · intro pn pid us1 us2 u hu
    induction us1 with
    | nil =>
      simp only [List.nil_append, processYears, processYear_of_raises hu,
        List.nil_append]
    | cons v vs ih =>
      simp only [List.cons_append, processYears, List.append_eq, ih]

/-- Witness for C8 at concrete rows and units. -/
theorem scraping_failures_isolated_witness :
    processRow "P" "1" "2024"
      ⟨false, false, ["Result", "B", "x", "o", "d", "t"], none, none, none⟩ = none ∧
    processRows "P" "1" "2024"
      [⟨false, true, ["W", "B", "x", "o", "d", "t"], none, none, none⟩]
      = processRows "P" "1" "2024" [] ∧
    processYears "P" "1" [⟨true, "2024", true, false, true, []⟩]
      = processYears "P" "1" [] :=
  ⟨scraping_failures_isolated.1 "P" "1" "2024" _ (Or.inl rfl),
   scraping_failures_isolated.2.1 "P" "1" "2024" [] [] _ rfl rfl,
   scraping_failures_isolated.2.2 "P" "1" [] [] _ rfl⟩

/-- C10: in every document the year-table scraper emits, the top-level
player.rating field is null and the player_rating field of every emitted
game record is null — the player's own rating is never populated. -/
theorem player_rating_never_populated (pn pid : String) (units : List YearUnit)
    (kv : String × JVal)
    (hkv : kv ∈ gamesEntries (scrapeDocument pn pid units)) :
    getField (getField (scrapeDocument pn pid units) "player") "rating" = JVal.null ∧
    getField kv.2 "player_rating" = JVal.null := by
  constructor
  · rfl
  · have h1 : gamesEntries (scrapeDocument pn pid units)
        = numberGames 1 (processYears pn pid units) := rfl
    rw [h1] at hkv
    obtain ⟨u, hu, r, hr, hg⟩ := mem_processYears (mem_numberGames hkv)
    exact processRow_player_rating hg

/-- Witness for C10 at a concrete one-unit, one-row scrape. -/
theorem player_rating_never_populated_witness :
    getField (getField (scrapeDocument "P Q" "123"
      [⟨false, "2024", true, false, true,
        [⟨false, false, ["W", "B", "x", "opp", "2024-01-05", "T"],
          none, none, none⟩]⟩]) "player") "rating" = JVal.null ∧
    getField ((gamesEntries (scrapeDocument "P Q" "123"
      [⟨false, "2024", true, false, true,
        [⟨false, false, ["W", "B", "x", "opp", "2024-01-05", "T"],
          none, none, none⟩]⟩])).headD ("", JVal.null)).2
      "player_rating" = JVal.null :=
  player_rating_never_populated _ _ _ _ (List.Mem.head _)

/-!
## Lemmas about the getimport.py validation pipeline
-/

theorem secondPass_sublist (l : List JVal) (seen : List String) :
    (secondPass l seen).Sublist l := by
  induction l generalizing seen with
  | nil => simp [secondPass]
  | cons x xs ih =>
    simp only [secondPass]
    split
    · exact (ih seen).cons x
    · exact (ih _).cons₂ x

theorem firstPass_mem {ps : List JVal} {seen : List String} {fp : List JVal} {r : JVal}
    (hfp : firstPass ps seen = some fp) (hr : r ∈ fp) :
    ∃ fields, nameOk fields = true ∧ validatedRecord fields = some r := by
  induction ps generalizing seen fp with
  | nil =>
    simp only [firstPass, Option.some.injEq] at hfp
    subst hfp
    simp at hr
  | cons p rest ih =>
    simp only [firstPass] at hfp
    split at hfp
    case h_1 fields =>
      split at hfp
      case isTrue hok =>
        split at hfp
        · exact ih hfp hr
        · split at hfp
          case h_1 => exact absurd hfp (by simp)
          case h_2 v hv =>
            split at hfp
            case h_1 => exact absurd hfp (by simp)
            case h_2 out hout =>
              rw [← Option.some.inj hfp] at hr
              rcases List.mem_cons.mp hr with h1 | h2
              · subst h1
                exact ⟨fields, hok, hv⟩
              · exact ih hout h2
      case isFalse => exact ih hfp hr
    case h_2 => exact ih hfp hr

theorem validateAndDedup_mem {ps out : List JVal} {r : JVal}
    (h : validateAndDedup ps = some out) (hr : r ∈ out) :
    ∃ fields, nameOk fields = true ∧ validatedRecord fields = some r := by
  unfold validateAndDedup at h
  split at h
  · exact absurd h (by simp)
  case h_2 vp hvp =>
    rw [← Option.some.inj h] at hr
    exact firstPass_mem hvp ((secondPass_sublist vp []).subset hr)

theorem validatedRecord_proj {p : List (String × JVal)} {r : JVal}
    (h : validatedRecord p = some r) :
    getField r "rating" = ratingNormalized (pyGet p "rating") ∧
    getField r "grade" = gradeNormalized (pyGet p "grade") ∧
    ∃ ibr, byesNormalized (pyGet p "byes") = some ibr ∧
      getField r "intentional_bye_rounds" = ibr := by
  unfold validatedRecord at h
  split at h
  · exact absurd h (by simp)
  case h_2 ibr hibr =>
    rw [← Option.some.inj h]
    exact ⟨rfl, rfl, ibr, hibr, rfl⟩

theorem ratingNormalized_shape (v : JVal) :
    ratingNormalized v = JVal.null ∨
      ∃ n : Int, ratingNormalized v = JVal.int n ∧ 0 ≤ n ∧ n ≤ 3000 := by
  unfold ratingNormalized
  split
  · exact Or.inl rfl
  · cases hO : pyInt? v with
    | none => exact Or.inl rfl
    | some n =>
      show (if 0 ≤ n ∧ n ≤ 3000 then JVal.int n else JVal.null) = JVal.null ∨
        ∃ m : Int, (if 0 ≤ n ∧ n ≤ 3000 then JVal.int n else JVal.null) = JVal.int m
          ∧ 0 ≤ m ∧ m ≤ 3000
      by_cases hr : 0 ≤ n ∧ n ≤ 3000
      · rw [if_pos hr]
        exact Or.inr ⟨n, rfl, hr.1, hr.2⟩
      · rw [if_neg hr]
        exact Or.inl rfl

theorem gradeNormalized_shape (v : JVal) :
    gradeNormalized v = JVal.null ∨ ∃ g : Int, gradeNormalized v = JVal.int g := by
  unfold gradeNormalized
  split
  · exact Or.inl rfl
  · by_cases hs : pyStrip (pyStr v) = "0" ∨ pyStrip (pyStr v) = ""
    · rw [if_pos hs]
      exact Or.inl rfl
    · rw [if_neg hs]
      cases hO : pyInt? v with
      | none => exact Or.inl rfl
      | some n => exact Or.inr ⟨n, rfl⟩

theorem byeRound?_pos {v : JVal} {n : Int} (h : byeRound? v = some n) : 0 < n := by
  unfold byeRound? at h
  by_cases hc : pyIsdigit (pyStripCh (pyStr v).toList) = true
      ∧ 0 < natOfDigits (pyStripCh (pyStr v).toList)
  · rw [if_pos hc] at h
    rw [← Option.some.inj h]
    exact_mod_cast hc.2
  · rw [if_neg hc] at h
    exact absurd h (by simp)

theorem mkByes_shape (l : List Int) (hl : ∀ n ∈ l, 0 < n) :
    mkByes l = JVal.null ∨
      ∃ l' : List Int, l' ≠ [] ∧ (∀ n ∈ l', 0 < n) ∧
        mkByes l = JVal.str
          (String.intercalate "," (l'.map (fun n => (⟨intChars n⟩ : String)))) := by
  cases l with
  | nil => exact Or.inl rfl
  | cons x xs => exact Or.inr ⟨x :: xs, by simp, hl, rfl⟩

theorem byesNormalized_shape {v w : JVal} (h : byesNormalized v = some w) :
    w = JVal.null ∨
      ∃ l : List Int, l ≠ [] ∧ (∀ n ∈ l, 0 < n) ∧
        w = JVal.str
          (String.intercalate "," (l.map (fun n => (⟨intChars n⟩ : String)))) := by
  unfold byesNormalized at h
  by_cases hc : (truthy v && !byesIn v) = true
  · rw [if_pos hc] at h
    cases v with
    | null => exact absurd h (by simp)
    | obj f => exact absurd h (by simp)
    | arr xs =>
      rw [← Option.some.inj h]
      exact mkByes_shape _ (by
        intro n hn
        obtain ⟨a, _, ha⟩ := List.mem_filterMap.mp hn
        exact byeRound?_pos ha)
    | str s =>
      rw [← Option.some.inj h]
      exact mkByes_shape _ (by
        intro n hn
        obtain ⟨a, _, ha⟩ := List.mem_filterMap.mp hn
        exact byeRound?_pos ha)
    | int n =>
      rw [← Option.some.inj h]
      by_cases hn : 0 < n
      · rw [if_pos hn]
        exact mkByes_shape [n] (by simpa using hn)
      · rw [if_neg hn]
        exact mkByes_shape [] (by simp)
    | bool b =>
      rw [← Option.some.inj h]
      by_cases hb : 0 < (if b then (1 : Int) else 0)
      · rw [if_pos hb]
        exact mkByes_shape _ (by
          intro n hn
          rw [List.mem_singleton.mp hn]
          exact hb)
      · rw [if_neg hb]
        exact mkByes_shape [] (by simp)
  · rw [if_neg hc] at h
    rw [← Option.some.inj h]
    exact Or.inl rfl

/-- C9: for every output record of the text-import pipeline, the rating
field is either null or an integer in [0, 3000]: the raw rating is
coerced to integer and set to null when non-coercible or out of range. -/
theorem rating_null_or_in_range (ps out : List JVal)
    (h : validateAndDedup ps = some out) :
    ∀ r ∈ out, getField r "rating" = JVal.null ∨
      ∃ n : Int, getField r "rating" = JVal.int n ∧ 0 ≤ n ∧ n ≤ 3000 := by
  intro r hr
  obtain ⟨fields, hok, hvr⟩ := validateAndDedup_mem h hr
  rw [(validatedRecord_proj hvr).1]
  exact ratingNormalized_shape _

/-- Witness for C9 at a concrete extraction. -/
theorem rating_null_or_in_range_witness :
    getField (((validateAndDedup
        [JVal.obj [("name", .str "John Smith"), ("rating", .str "2900")]]).getD
      []).headD JVal.null) "rating" = JVal.null ∨
    ∃ n : Int, getField (((validateAndDedup
        [JVal.obj [("name", .str "John Smith"), ("rating", .str "2900")]]).getD
      []).headD JVal.null) "rating" = JVal.int n ∧ 0 ≤ n ∧ n ≤ 3000 :=
  rating_null_or_in_range
    [JVal.obj [("name", .str "John Smith"), ("rating", .str "2900")]]
    ((validateAndDedup
      [JVal.obj [("name", .str "John Smith"), ("rating", .str "2900")]]).getD [])
    rfl _ (List.Mem.head _)

/-- C5 (counterexample): the grade validation has no [1, 12] range check —
a raw grade of 13 survives to the output record, violating the claimed
invariant. -/
theorem grade_range_counterexample :
    (validateAndDedup [JVal.obj [("name", .str "Ann"), ("grade", .int 13)]]).map
      (fun l => l.map (fun r => getField r "grade")) = some [JVal.int 13] ∧
    ¬ specGradeRange (JVal.int 13) := by
  refine ⟨rfl, ?_⟩
  rintro (h | ⟨g, hg, h1, h2⟩)
  · cases h
  · cases hg
    omega

/-- C5 (amended): for every output record, the grade field is null or an
integer — coerced via int(), null when the raw value strips to "0" or "",
null on conversion failure — but never range-checked against [1, 12]. -/
theorem grade_null_or_int (ps out : List JVal)
    (h : validateAndDedup ps = some out) :
    ∀ r ∈ out, getField r "grade" = JVal.null ∨
      ∃ g : Int, getField r "grade" = JVal.int g := by
  intro r hr
  obtain ⟨fields, hok, hvr⟩ := validateAndDedup_mem h hr
  rw [(validatedRecord_proj hvr).2.1]
  exact gradeNormalized_shape _

/-- Witness for the amended C5 at a concrete extraction. -/
theorem grade_null_or_int_witness :
    getField (((validateAndDedup
        [JVal.obj [("name", .str "Bob"), ("grade", .int 13)]]).getD
      []).headD JVal.null) "grade" = JVal.null ∨
    ∃ g : Int, getField (((validateAndDedup
        [JVal.obj [("name", .str "Bob"), ("grade", .int 13)]]).getD
      []).headD JVal.null) "grade" = JVal.int g :=
  grade_null_or_int
    [JVal.obj [("name", .str "Bob"), ("grade", .int 13)]]
    ((validateAndDedup [JVal.obj [("name", .str "Bob"), ("grade", .int 13)]]).getD [])
    rfl _ (List.Mem.head _)

/-- C4 (counterexample): a byes list [2, 1, 2] is re-serialized as
"2,1,2" — the emitted round numbers are neither sorted ascending nor
duplicate-free, refuting the claimed "sorted set" normalization. -/
theorem byes_not_sorted_counterexample :
    (validateAndDedup [JVal.obj
        [("name", .str "Ann"), ("byes", .arr [.int 2, .int 1, .int 2])]]).map
      (fun l => l.map (fun r => getField r "intentional_bye_rounds"))
      = some [JVal.str "2,1,2"] ∧
    ¬ List.Chain' (· < ·)
      ((pySplitComma "2,1,2").map (fun t => natOfDigits t.toList)) := by
  refine ⟨rfl, ?_⟩
  intro hch
  have he : (pySplitComma "2,1,2").map (fun t => natOfDigits t.toList)
      = [2, 1, 2] := rfl
  rw [he] at hch
  exact absurd (List.chain'_cons.mp hch).1 (by omega)

/-- C4 (amended): the bye-rounds field is normalized from a list, a
comma-separated string, or a scalar into the strictly positive round
numbers it contains, kept in input order with duplicates retained,
re-serialized comma-joined, or null when none remain. -/
theorem byes_positive_comma_join (ps out : List JVal)
    (h : validateAndDedup ps = some out) :
    ∀ r ∈ out, getField r "intentional_bye_rounds" = JVal.null ∨
      ∃ l : List Int, l ≠ [] ∧ (∀ n ∈ l, 0 < n) ∧
        getField r "intentional_bye_rounds"
          = JVal.str (String.intercalate ","
              (l.map (fun n => (⟨intChars n⟩ : String)))) := by
  intro r hr
  obtain ⟨fields, hok, hvr⟩ := validateAndDedup_mem h hr
  obtain ⟨ibr, hb, hf⟩ := (validatedRecord_proj hvr).2.2
  rw [hf]
  exact byesNormalized_shape hb

/-- Witness for the amended C4 at a concrete extraction. -/
theorem byes_positive_comma_join_witness :
    getField (((validateAndDedup
        [JVal.obj [("name", .str "Cal"), ("byes", .arr [.int 1, .int 3])]]).getD
      []).headD JVal.null) "intentional_bye_rounds" = JVal.null ∨
    ∃ l : List Int, l ≠ [] ∧ (∀ n ∈ l, 0 < n) ∧
      getField (((validateAndDedup
          [JVal.obj [("name", .str "Cal"), ("byes", .arr [.int 1, .int 3])]]).getD
        []).headD JVal.null) "intentional_bye_rounds"
        = JVal.str (String.intercalate ","
            (l.map (fun n => (⟨intChars n⟩ : String)))) :=
  byes_positive_comma_join
    [JVal.obj [("name", .str "Cal"), ("byes", .arr [.int 1, .int 3])]]
    ((validateAndDedup
      [JVal.obj [("name", .str "Cal"), ("byes", .arr [.int 1, .int 3])]]).getD [])
    rfl _ (List.Mem.head _)

/-!
## C6: truncation salvage
-/

theorem lastIdx?_none_iff {c : Char} {l : List Char} :
    lastIdx? c l = none ↔ c ∉ l := by
  induction l with
  | nil => simp [lastIdx?]
  | cons x xs ih =>
    simp only [lastIdx?]
    cases h : lastIdx? c xs with
    | some i =>
      have hmem : c ∈ xs := by
        by_contra hc
        rw [ih.mpr hc] at h
        cases h
      simp [List.mem_cons, hmem]
    | none =>
      by_cases hx : x = c
      · simp [hx, List.mem_cons]
      · simp [hx, List.mem_cons, ih.mp h]
        exact fun he => hx he.symm

theorem lastIdx?_spec {c : Char} {l : List Char} {i : Nat}
    (h : lastIdx? c l = some i) :
    l[i]? = some c ∧ ∀ j, i < j → l[j]? ≠ some c := by
  induction l generalizing i with
  | nil => cases h
  | cons x xs ih =>
    simp only [lastIdx?] at h
    cases h' : lastIdx? c xs with
    | some k =>
      rw [h'] at h
      have hik : i = k + 1 := (Option.some.inj h).symm
      subst hik
      obtain ⟨h1, h2⟩ := ih h'
      refine ⟨by simpa using h1, ?_⟩
      intro j hj
      cases j with
      | zero => omega
      | succ j' =>
        simpa using h2 j' (by omega)
    | none =>
      rw [h'] at h
      by_cases hx : x = c
      · rw [if_pos hx] at h
        have hi0 : i = 0 := (Option.some.inj h).symm
        subst hi0
        refine ⟨by simpa using hx, ?_⟩
        intro j hj
        cases j with
        | zero => omega
        | succ j' =>
          intro hget
          have : c ∈ xs := by
            have := List.getElem?_mem (by simpa using hget : xs[j']? = some c)
            exact this
          exact (lastIdx?_none_iff.mp h') this
      · rw [if_neg hx] at h
        cases h

theorem lastIdx?_eq_of_last {c : Char} {l : List Char} {i : Nat}
    (h1 : l[i]? = some c) (h2 : ∀ j, i < j → l[j]? ≠ some c) :
    lastIdx? c l = some i := by
  cases h : lastIdx? c l with
  | none =>
    exact absurd (List.getElem?_mem h1) (lastIdx?_none_iff.mp h)
  | some k =>
    obtain ⟨hk1, hk2⟩ := lastIdx?_spec h
    rcases Nat.lt_trichotomy i k with hik | hik | hik
    · exact absurd hk1 (h2 k hik)
    · rw [hik]
    · exact absurd h1 (hk2 i hik)

/-- C6 (counterexample): the salvage step does not always rebalance the
bracket counts: a truncated array with no '\x7d' at all is left unchanged,
and even when a '\x7d' exists the single appended ']' need not restore the
balance. -/
theorem salvage_not_rebalancing_counterexample :
    salvageTruncation "[1, 2" = "[1, 2" ∧
    ("[1, 2".toList.count ']' < "[1, 2".toList.count '[') ∧
    salvageTruncation "[[\x7b\"a\": 1\x7d" = "[[\x7b\"a\": 1\x7d]" ∧
    ("[[\x7b\"a\": 1\x7d]".toList.count ']' < "[[\x7b\"a\": 1\x7d]".toList.count '[') := by
  exact ⟨rfl, by decide, rfl, by decide⟩

/-- C6 (amended): when the candidate text has more '[' than ']', the
salvage cuts the text at the last '\x7d' when one exists — rstrip, one
trailing comma stripped, a single ']' appended — and leaves the text
unchanged when no '\x7d' occurs; no bracket rebalancing is guaranteed. -/
theorem salvage_truncation_behaviour (s : String)
    (hexc : s.toList.count ']' < s.toList.count '[') :
    (('}' ∉ s.toList) → salvageTruncation s = s) ∧
    (∀ i : Nat, s.toList[i]? = some '}' →
      (∀ j, i < j → s.toList[j]? ≠ some '}') →
      salvageTruncation s
        = ⟨dropTrailingComma (pyRstrip (s.toList.take (i + 1))) ++ [']']⟩) := by
  constructor
  · intro hno
    unfold salvageTruncation
    rw [if_pos hexc, lastIdx?_none_iff.mpr hno]
  · intro i h1 h2
    unfold salvageTruncation
    rw [if_pos hexc, lastIdx?_eq_of_last h1 h2]

/-- Witness for the amended C6 at a concrete truncated text. -/
theorem salvage_truncation_behaviour_witness :
    salvageTruncation "[\x7b\x7d," = "[\x7b\x7d]" := by
  have h := (salvage_truncation_behaviour "[\x7b\x7d," (by decide)).2 2
    (by decide)
    (by
      intro j hj
      by_cases hj4 : j < 4
      · have hj3 : j = 3 := by omega
        subst hj3
        decide
      · rw [List.getElem?_eq_none (by simpa using Nat.le_of_not_lt hj4)]
        simp)
  exact h.trans rfl

/-!
## C7: opponent-rating extraction
-/

theorem scanCells_range {cells : List String} {n : Int}
    (h : scanCells cells = some n) : 100 ≤ n ∧ n ≤ 3000 := by
  induction cells with
  | nil => cases h
  | cons c cs ih =>
    unfold scanCells at h
    split at h
    · split at h
      · rename_i hc
        rw [← Option.some.inj h]
        exact hc
      · exact ih h
    · exact ih h

/-- C7 (amended): the extractor accepts the first 3-4 digit token of the
whole row text whenever it parses into [100, 3000]; otherwise it scans
every cell in order for such a token; any returned rating lies in
[100, 3000].  No pairing-number comparison and no restriction to column
indices 1 and 2 exist in the code. -/
theorem extractOpponentRating_range :
    (∀ (rowText : String) (cells : List String) (n : Int),
        extractOpponentRating rowText cells = some n → 100 ≤ n ∧ n ≤ 3000) ∧
    (∀ (rowText : String) (cells : List String) (tok : List Char),
        find34 rowText.toList = some tok →
        100 ≤ (natOfDigits tok : Int) → (natOfDigits tok : Int) ≤ 3000 →
        extractOpponentRating rowText cells = some (natOfDigits tok : Int)) := by
  constructor
  · intro rowText cells n h
    unfold extractOpponentRating at h
    split at h
    · split at h
      · rename_i hc
        rw [← Option.some.inj h]
        exact hc
      · exact scanCells_range h
    · exact scanCells_range h
  · intro rowText cells tok hfind h1 h2
    unfold extractOpponentRating
    rw [hfind]
    show (if 100 ≤ (natOfDigits tok : Int) ∧ (natOfDigits tok : Int) ≤ 3000
      then some (natOfDigits tok : Int) else scanCells cells) = some (natOfDigits tok : Int)
    rw [if_pos ⟨h1, h2⟩]

/-- Witness for the amended C7 at a concrete row. -/
theorem extractOpponentRating_range_witness :
    extractOpponentRating "x 1500 y" [] = some (natOfDigits ['1', '5', '0', '0'] : Int) ∧
    100 ≤ (natOfDigits ['1', '5', '0', '0'] : Int) ∧
      (natOfDigits ['1', '5', '0', '0'] : Int) ≤ 3000 := by
  have h := extractOpponentRating_range.2 "x 1500 y" [] ['1', '5', '0', '0']
    rfl (by decide) (by decide)
  exact ⟨h, extractOpponentRating_range.1 "x 1500 y" [] _ h⟩

/-- C7 (counterexample): the code never compares a token with the pairing
number and its fallback scans every cell, unlike the claimed algorithm:
with pairing number "1500" the code still returns 1500, and a rating
found only in cell index 3 is returned although the claimed algorithm
(restricted to cells 1 and 2) finds nothing. -/
theorem rating_extraction_spec_divergence :
    extractOpponentRating "1500" [] = some 1500 ∧
    specRatingExtraction "1500" "1500" [] = none ∧
    extractOpponentRating "9999" ["a", "b", "c", "1500"] = some 1500 ∧
    specRatingExtraction "7" "9999" ["a", "b", "c", "1500"] = none := by
  exact ⟨rfl, rfl, rfl, rfl⟩

/-!
## C2: two-stage deduplication
-/

theorem insSorted_perm (s : String) (l : List String) :
    (insSorted s l).Perm (s :: l) := by
  induction l with
  | nil => exact List.Perm.refl _
  | cons t ts ih =>
    unfold insSorted
    by_cases h : s ≤ t
    · rw [if_pos h]
    · rw [if_neg h]
      exact (List.Perm.cons t ih).trans (List.Perm.swap s t ts)

theorem insSorted_sorted {s : String} {l : List String}
    (h : l.Pairwise (· ≤ ·)) : (insSorted s l).Pairwise (· ≤ ·) := by
  induction l with
  | nil => simp [insSorted]
  | cons t ts ih =>
    unfold insSorted
    by_cases hst : s ≤ t
    · rw [if_pos hst]
      refine List.Pairwise.cons ?_ h
      intro b hb
      rcases List.mem_cons.mp hb with rfl | hb'
      · exact hst
      · exact le_trans hst (List.rel_of_pairwise_cons h hb')
    · rw [if_neg hst]
      refine List.Pairwise.cons ?_ (ih h.of_cons)
      intro b hb
      have hmem := (insSorted_perm s ts).mem_iff.mp hb
      rcases List.mem_cons.mp hmem with rfl | hb'
      · exact le_of_not_le hst
      · exact List.rel_of_pairwise_cons h hb'

theorem sortStrings_perm (l : List String) : (sortStrings l).Perm l := by
  induction l with
  | nil => exact List.Perm.refl _
  | cons s ss ih => exact (insSorted_perm s _).trans (List.Perm.cons s ih)

theorem sortStrings_sorted (l : List String) :
    (sortStrings l).Pairwise (· ≤ ·) := by
  induction l with
  | nil => exact List.Pairwise.nil
  | cons s ss ih => exact insSorted_sorted ih

theorem sortStrings_eq_of_perm {l₁ l₂ : List String} (h : l₁.Perm l₂) :
    sortStrings l₁ = sortStrings l₂ :=
  List.eq_of_perm_of_sorted
    ((sortStrings_perm l₁).trans (h.trans (sortStrings_perm l₂).symm))
    (sortStrings_sorted l₁) (sortStrings_sorted l₂)

theorem countP_le_one_of_pairwise_ne {α β : Type} [DecidableEq β] {f : α → β}
    {l : List α} (h : l.Pairwise (fun a b => f a ≠ f b)) (k : β) :
    l.countP (fun a => decide (f a = k)) ≤ 1 := by
  induction l with
  | nil => simp
  | cons a as ih =>
    rw [List.countP_cons]
    by_cases hak : f a = k
    · have hzero : as.countP (fun x => decide (f x = k)) = 0 := by
        rw [List.countP_eq_zero]
        intro b hb
        simp only [decide_eq_true_eq]
        intro hbk
        exact List.rel_of_pairwise_cons h hb (hak.trans hbk.symm)
      rw [hzero]
      simp [hak]
    · have := ih h.of_cons
      simp only [hak]
      simp
      omega

theorem validatedRecord_obj {p : List (String × JVal)} {r : JVal}
    (h : validatedRecord p = some r) :
    ∃ flds, r = .obj flds ∧
      pyGet flds "name" = .str (nameOf p) ∧
      pyGet flds "uscf_id" = uscfIdVal p := by
  unfold validatedRecord at h
  split at h
  · exact absurd h (by simp)
  · exact ⟨_, (Option.some.inj h).symm, rfl, rfl⟩

theorem nameOf_validated {p flds : List (String × JVal)}
    (hname : pyGet flds "name" = .str (nameOf p)) :
    nameOf flds = nameOf p := by
  unfold nameOf
  rw [hname]
  show pyStrip (pyStrip (pyStr (pyGet p "name"))) = pyStrip (pyStr (pyGet p "name"))
  exact pyStrip_idem _

theorem uscfIdVal_cases (p : List (String × JVal)) :
    uscfIdVal p = JVal.null ∨
    (∃ s, uscfIdVal p = JVal.str s ∧ pyStrip s = s ∧
      ¬(s = "00000" ∨ s = "0000" ∨ s = "0" ∨ s = "")) ∨
    (uscfIdVal p = pyGet p "uscf_id" ∧ truthy (uscfIdVal p) = false) := by
  unfold uscfIdVal
  by_cases ht : truthy (pyGet p "uscf_id") = true
  · rw [if_pos ht]
    by_cases hph : pyStrip (pyStr (pyGet p "uscf_id")) = "00000" ∨
        pyStrip (pyStr (pyGet p "uscf_id")) = "0000" ∨
        pyStrip (pyStr (pyGet p "uscf_id")) = "0" ∨
        pyStrip (pyStr (pyGet p "uscf_id")) = ""
    · rw [if_pos hph]
      exact Or.inl rfl
    · rw [if_neg hph]
      exact Or.inr (Or.inl ⟨_, rfl, pyStrip_idem _, hph⟩)
  · rw [if_neg ht]
    exact Or.inr (Or.inr ⟨rfl, by simpa using ht⟩)

theorem uscfIdVal_validated {p flds : List (String × JVal)}
    (hu : pyGet flds "uscf_id" = uscfIdVal p) :
    uscfIdVal flds = uscfIdVal p := by
  rcases uscfIdVal_cases p with hnull | ⟨s, hs, hstrip, hph⟩ | ⟨hkeep, hfalsy⟩
  · rw [hnull] at hu ⊢
    unfold uscfIdVal
    rw [hu]
    rfl
  · rw [hs] at hu ⊢
    have hsne : s ≠ "" := fun he => hph (Or.inr (Or.inr (Or.inr he)))
    unfold uscfIdVal
    rw [hu]
    have ht : truthy (JVal.str s) = true := by simp [truthy, hsne]
    rw [if_pos ht]
    have hred : pyStrip (pyStr (JVal.str s)) = s := hstrip
    rw [hred, if_neg hph]
  · rw [hkeep] at hu ⊢
    unfold uscfIdVal
    rw [hu]
    have ht : truthy (pyGet p "uscf_id") = false := by
      rw [← hkeep]
      exact hfalsy
    rw [if_neg (by simp [ht])]

theorem nameOk_ne_empty {p : List (String × JVal)} (hok : nameOk p = true) :
    nameOf p ≠ "" := by
  unfold nameOk at hok
  have h2 := (Bool.and_eq_true _ _).mp hok |>.2
  exact bne_iff_ne.mp h2

theorem nameOk_validated {p flds : List (String × JVal)}
    (hname : pyGet flds "name" = .str (nameOf p)) (hok : nameOk p = true) :
    nameOk flds = true := by
  unfold nameOk
  rw [hname]
  have hne : nameOf p ≠ "" := nameOk_ne_empty hok
  have h2 : pyStrip (pyStr (JVal.str (nameOf p))) = nameOf p := by
    show pyStrip (pyStrip (pyStr (pyGet p "name"))) = pyStrip (pyStr (pyGet p "name"))
    exact pyStrip_idem _
  rw [h2]
  simp [truthy, hne]

theorem recKey?_validated {p : List (String × JVal)} {r : JVal}
    (hvr : validatedRecord p = some r) (hok : nameOk p = true) :
    recKey? r = some (firstKey p) := by
  obtain ⟨flds, rfl, hname, hu⟩ := validatedRecord_obj hvr
  have hnm : nameOf flds = nameOf p := nameOf_validated hname
  have huu : uscfIdVal flds = uscfIdVal p := uscfIdVal_validated hu
  show (if nameOk flds = true then some (firstKey flds) else none) = some (firstKey p)
  rw [if_pos (nameOk_validated hname hok)]
  unfold firstKey
  rw [hnm, huu]

theorem firstPass_keys {ps : List JVal} {seen : List String} {fp : List JVal}
    (hfp : firstPass ps seen = some fp) :
    fp.Pairwise (fun a b => recKey? a ≠ recKey? b) ∧
    ∀ r ∈ fp, ∃ k, recKey? r = some k ∧ k ∉ seen := by
  induction ps generalizing seen fp with
  | nil =>
    simp only [firstPass, Option.some.injEq] at hfp
    subst hfp
    exact ⟨List.Pairwise.nil, by simp⟩
  | cons p rest ih =>
    simp only [firstPass] at hfp
    split at hfp
    case h_2 => exact ih hfp
    case h_1 fields =>
      split at hfp
      case isFalse => exact ih hfp
      case isTrue hok =>
        split at hfp
        case isTrue => exact ih hfp
        case isFalse hseen =>
          split at hfp
          case h_1 => exact absurd hfp (by simp)
          case h_2 r hvr =>
            split at hfp
            case h_1 => exact absurd hfp (by simp)
            case h_2 out hout =>
              rw [← Option.some.inj hfp]
              obtain ⟨hpw, hmem⟩ := ih hout
              have hkey : recKey? r = some (firstKey fields) :=
                recKey?_validated hvr hok
              constructor
              · refine List.Pairwise.cons ?_ hpw
                intro b hb
                obtain ⟨kb, hkb, hkbs⟩ := hmem b hb
                rw [hkey, hkb]
                intro he
                exact hkbs ((Option.some.inj he) ▸ List.mem_cons_self _ _)
              · intro r' hr'
                rcases List.mem_cons.mp hr' with rfl | hr''
                · exact ⟨firstKey fields, hkey, hseen⟩
                · obtain ⟨kb, hkb, hkbs⟩ := hmem r' hr''
                  exact ⟨kb, hkb, fun hks => hkbs (List.mem_cons_of_mem _ hks)⟩

theorem secondPass_keys (l : List JVal) (seen : List String) :
    (secondPass l seen).Pairwise (fun a b => secondKeyOf a ≠ secondKeyOf b) ∧
    ∀ r ∈ secondPass l seen, secondKeyOf r ∉ seen := by
  induction l generalizing seen with
  | nil => exact ⟨List.Pairwise.nil, by simp [secondPass]⟩
  | cons x xs ih =>
    simp only [secondPass]
    by_cases hx : secondKeyOf x ∈ seen
    · rw [if_pos hx]
      exact ih seen
    · rw [if_neg hx]
      obtain ⟨hpw, hmem⟩ := ih (secondKeyOf x :: seen)
      constructor
      · refine List.Pairwise.cons ?_ hpw
        intro b hb he
        exact hmem b hb (he ▸ List.mem_cons_self _ _)
      · intro r hr
        rcases List.mem_cons.mp hr with rfl | hr'
        · exact hx
        · exact fun hs => hmem r hr' (List.mem_cons_of_mem _ hs)

/-- C2: two players sharing no USCF id whose names differ only by the
first-pass normalization (case, spacing, and `[.,-]` punctuation) receive
the same first-pass key, and the first-pass output holds at most one
record per key; two such players whose name tokens (tokens longer than
one character) are permutations of each other receive the same
second-pass key, and the final output holds at most one record per
second-pass key — so at most one record for such a name survives. -/
theorem two_stage_dedup :
    (∀ p1 p2 : List (String × JVal),
        truthy (uscfIdVal p1) = false → truthy (uscfIdVal p2) = false →
        normalizedName (nameOf p1) = normalizedName (nameOf p2) →
        firstKey p1 = firstKey p2) ∧
    (∀ (ps fp : List JVal), firstPass ps [] = some fp →
        ∀ k : String, fp.countP (fun r => decide (recKey? r = some k)) ≤ 1) ∧
    (∀ p1 p2 : List (String × JVal),
        truthy (pyGet p1 "uscf_id") = false → truthy (pyGet p2 "uscf_id") = false →
        (nameTokens (pyStr (pyGet p1 "name"))).Perm
          (nameTokens (pyStr (pyGet p2 "name"))) →
        secondKey p1 = secondKey p2) ∧
    (∀ (ps out : List JVal), validateAndDedup ps = some out →
        ∀ k : String, out.countP (fun r => decide (secondKeyOf r = k)) ≤ 1) := by
  refine ⟨?_, ?_, ?_, ?_⟩
  · intro p1 p2 h1 h2 hn
    unfold firstKey
    rw [if_neg (by simp [h1]), if_neg (by simp [h2]), hn]
  · intro ps fp hfp k
    exact countP_le_one_of_pairwise_ne (firstPass_keys hfp).1 (some k)
  · intro p1 p2 h1 h2 hperm
    unfold secondKey
    rw [if_neg (by simp [h1]), if_neg (by simp [h2]),
      sortStrings_eq_of_perm hperm]
  · intro ps out hout k
    unfold validateAndDedup at hout
    split at hout
    · exact absurd hout (by simp)
    case h_2 vp hvp =>
      rw [← Option.some.inj hout]
      exact countP_le_one_of_pairwise_ne (secondPass_keys vp []).1 k

/-- Witness for C2 at concrete near-duplicate records. -/
theorem two_stage_dedup_witness :
    firstKey [("name", JVal.str "Jane A. Doe")]
      = firstKey [("name", JVal.str "jane a doe")] ∧
    secondKey [("name", JVal.str "Doe Jane")]
      = secondKey [("name", JVal.str "Jane Doe")] ∧
    ((validateAndDedup [JVal.obj [("name", .str "Doe Jane")],
        JVal.obj [("name", .str "Jane Doe")]]).getD []).countP
      (fun r => decide (secondKeyOf r = "doe jane")) ≤ 1 :=
  ⟨two_stage_dedup.1 _ _ rfl rfl rfl,
   two_stage_dedup.2.2.1 _ _ rfl rfl (by decide),
   two_stage_dedup.2.2.2
     [JVal.obj [("name", .str "Doe Jane")], JVal.obj [("name", .str "Jane Doe")]]
     ((validateAndDedup [JVal.obj [("name", .str "Doe Jane")],
        JVal.obj [("name", .str "Jane Doe")]]).getD [])
     rfl "doe jane"⟩

/-!
## C3: idempotence analysis of the normalization+dedup step
-/

theorem orNone_idem (v : JVal) : orNone (orNone v) = orNone v := by
  unfold orNone pyOr
  by_cases ht : truthy v = true
  · rw [if_pos ht, if_pos ht]
  · rw [if_neg ht]
    rfl

theorem ratingNormalized_idem (v : JVal) :
    ratingNormalized (ratingNormalized v) = ratingNormalized v := by
  rcases ratingNormalized_shape v with h | ⟨n, h, h1, h2⟩
  · rw [h]
    rfl
  · rw [h]
    show (if 0 ≤ n ∧ n ≤ 3000 then JVal.int n else JVal.null) = JVal.int n
    rw [if_pos ⟨h1, h2⟩]

theorem gradeNormalized_idem {v : JVal}
    (hne : gradeNormalized v ≠ JVal.int 0) :
    gradeNormalized (gradeNormalized v) = gradeNormalized v := by
  rcases gradeNormalized_shape v with h | ⟨g, h⟩
  · rw [h]
    rfl
  · rw [h]
    have hg0 : g ≠ 0 := by
      intro hg
      exact hne (h.trans (by rw [hg]))
    show (if pyStrip (pyStr (JVal.int g)) = "0" ∨ pyStrip (pyStr (JVal.int g)) = ""
      then JVal.null
      else match pyInt? (JVal.int g) with
        | some n => JVal.int n
        | none => JVal.null) = JVal.int g
    have hs : pyStrip (pyStr (JVal.int g)) = (⟨intChars g⟩ : String) :=
      pyStrip_intStr g
    rw [hs, if_neg (by
      rintro (h0 | hempty)
      · exact hg0 ((intStr_eq_zero_iff g).mp h0)
      · exact intStr_ne_empty g hempty)]
    rfl

theorem fideIdVal_cases (p : List (String × JVal)) :
    fideIdVal p = JVal.null ∨ ∃ s, fideIdVal p = JVal.str s ∧ pyStrip s = s := by
  unfold fideIdVal
  by_cases ht : truthy (pyGet p "fide_id") = true
  · rw [if_pos ht]
    exact Or.inr ⟨_, rfl, pyStrip_idem _⟩
  · rw [if_neg ht]
    exact Or.inl rfl

theorem fideIdVal_of_stored {q p : List (String × JVal)}
    (hq : pyGet q "fide_id" = fideIdVal p) (hne : fideIdVal p ≠ JVal.str "") :
    fideIdVal q = fideIdVal p := by
  rcases fideIdVal_cases p with h | ⟨s, h, hs⟩
  · rw [h] at hq ⊢
    unfold fideIdVal
    rw [hq]
    rfl
  · rw [h] at hq ⊢
    have hsne : s ≠ "" := by
      intro he
      exact hne (h.trans (by rw [he]))
    unfold fideIdVal
    rw [hq]
    have ht : truthy (JVal.str s) = true := by simp [truthy, hsne]
    rw [if_pos ht]
    show JVal.str (pyStrip s) = JVal.str s
    rw [hs]

theorem teamNameVal_of_stored {q p : List (String × JVal)}
    (h1 : pyGet q "team" = JVal.null)
    (h2 : pyGet q "team_name" = teamNameVal p) :
    teamNameVal q = teamNameVal p := by
  unfold teamNameVal at h2 ⊢
  rw [h1, h2]
  show pyOr (pyOr (pyGet p "team") (pyOr (pyGet p "team_name") JVal.null)) JVal.null
    = pyOr (pyGet p "team") (pyOr (pyGet p "team_name") JVal.null)
  unfold pyOr
  by_cases ht : truthy (pyGet p "team") = true
  · rw [if_pos ht, if_pos ht]
  · rw [if_neg ht]
    by_cases ht2 : truthy (pyGet p "team_name") = true
    · rw [if_pos ht2, if_pos ht2]
    · rw [if_neg ht2]
      rfl

theorem validatedRecord_of_byes {q : List (String × JVal)} {w : JVal}
    (hb : byesNormalized (pyGet q "byes") = some w) :
    validatedRecord q = some (JVal.obj (validatedFields q w)) := by
  unfold validatedRecord
  rw [hb]

theorem validatedFields_stable (p : List (String × JVal))
    (hgr : gradeNormalized (pyGet p "grade") ≠ JVal.int 0)
    (hfide : fideIdVal p ≠ JVal.str "") :
    validatedFields (validatedFields p JVal.null) JVal.null
      = validatedFields p JVal.null := by
  show [("name", JVal.str (nameOf (validatedFields p JVal.null))),
    ("status", pyGetD (validatedFields p JVal.null) "status" (JVal.str "active")),
    ("section", orNone (pyGet (validatedFields p JVal.null) "section")),
    ("rating", ratingNormalized (pyGet (validatedFields p JVal.null) "rating")),
    ("uscf_id", uscfIdVal (validatedFields p JVal.null)),
    ("fide_id", fideIdVal (validatedFields p JVal.null)),
    ("state", orNone (pyGet (validatedFields p JVal.null) "state")),
    ("city", orNone (pyGet (validatedFields p JVal.null) "city")),
    ("email", orNone (pyGet (validatedFields p JVal.null) "email")),
    ("phone", orNone (pyGet (validatedFields p JVal.null) "phone")),
    ("team_name", teamNameVal (validatedFields p JVal.null)),
    ("school", orNone (pyGet (validatedFields p JVal.null) "school")),
    ("grade", gradeNormalized (pyGet (validatedFields p JVal.null) "grade")),
    ("intentional_bye_rounds", JVal.null),
    ("notes", orNone (pyGet (validatedFields p JVal.null) "notes"))]
    = validatedFields p JVal.null
  rw [show nameOf (validatedFields p JVal.null) = nameOf p from nameOf_validated rfl,
    show pyGetD (validatedFields p JVal.null) "status" (JVal.str "active")
      = pyGetD p "status" (JVal.str "active") from rfl,
    show orNone (pyGet (validatedFields p JVal.null) "section")
      = orNone (pyGet p "section") from orNone_idem _,
    show ratingNormalized (pyGet (validatedFields p JVal.null) "rating")
      = ratingNormalized (pyGet p "rating") from ratingNormalized_idem _,
    show uscfIdVal (validatedFields p JVal.null) = uscfIdVal p from
      uscfIdVal_validated rfl,
    show fideIdVal (validatedFields p JVal.null) = fideIdVal p from
      fideIdVal_of_stored rfl hfide,
    show orNone (pyGet (validatedFields p JVal.null) "state")
      = orNone (pyGet p "state") from orNone_idem _,
    show orNone (pyGet (validatedFields p JVal.null) "city")
      = orNone (pyGet p "city") from orNone_idem _,
    show orNone (pyGet (validatedFields p JVal.null) "email")
      = orNone (pyGet p "email") from orNone_idem _,
    show orNone (pyGet (validatedFields p JVal.null) "phone")
      = orNone (pyGet p "phone") from orNone_idem _,
    show teamNameVal (validatedFields p JVal.null) = teamNameVal p from
      teamNameVal_of_stored rfl rfl,
    show orNone (pyGet (validatedFields p JVal.null) "school")
      = orNone (pyGet p "school") from orNone_idem _,
    show gradeNormalized (pyGet (validatedFields p JVal.null) "grade")
      = gradeNormalized (pyGet p "grade") from gradeNormalized_idem hgr,
    show orNone (pyGet (validatedFields p JVal.null) "notes")
      = orNone (pyGet p "notes") from orNone_idem _]
  rfl

theorem validated_fixed {p : List (String × JVal)} {r : JVal}
    (h : validatedRecord p = some r) (hok : nameOk p = true)
    (hibr : getField r "intentional_bye_rounds" = JVal.null)
    (hgr : getField r "grade" ≠ JVal.int 0)
    (hfide : getField r "fide_id" ≠ JVal.str "") :
    ∃ flds, r = JVal.obj flds ∧ nameOk flds = true ∧
      validatedRecord flds = some r := by
  unfold validatedRecord at h
  split at h
  · exact absurd h (by simp)
  case h_2 ibr hb =>
    obtain rfl : r = JVal.obj (validatedFields p ibr) := (Option.some.inj h).symm
    obtain rfl : ibr = JVal.null := hibr
    refine ⟨validatedFields p JVal.null, rfl, nameOk_validated rfl hok, ?_⟩
    have hb2 : byesNormalized
        (pyGet (validatedFields p JVal.null) "byes") = some JVal.null := rfl
    rw [validatedRecord_of_byes hb2, validatedFields_stable p hgr hfide]

theorem firstPass_fixed {l : List JVal} {seen : List String}
    (hv : ∀ r ∈ l, ∃ flds, r = JVal.obj flds ∧ nameOk flds = true ∧
        validatedRecord flds = some r)
    (hpw : l.Pairwise (fun a b => recKey? a ≠ recKey? b))
    (hseen : ∀ r ∈ l, ∀ k, recKey? r = some k → k ∉ seen) :
    firstPass l seen = some l := by
  induction l generalizing seen with
  | nil => rfl
  | cons r rest ih =>
    obtain ⟨flds, rfl, hok, hvr⟩ := hv r (List.mem_cons_self r rest)
    simp only [firstPass]
    rw [if_pos hok]
    have hkey : recKey? (JVal.obj flds) = some (firstKey flds) := by
      show (if nameOk flds = true then some (firstKey flds) else none) = _
      rw [if_pos hok]
    have hns : firstKey flds ∉ seen :=
      hseen _ (List.mem_cons_self _ _) _ hkey
    rw [if_neg hns, hvr]
    have hrest : firstPass rest (firstKey flds :: seen) = some rest := by
      refine ih (fun r' hr' => hv r' (List.mem_cons_of_mem _ hr')) hpw.of_cons ?_
      intro r' hr' k hk hkmem
      rcases List.mem_cons.mp hkmem with rfl | hks
      · exact List.rel_of_pairwise_cons hpw hr' (hkey.trans hk.symm)
      · exact hseen r' (List.mem_cons_of_mem _ hr') k hk hks
    rw [hrest]

theorem secondPass_fixed {l : List JVal} {seen : List String}
    (hpw : l.Pairwise (fun a b => secondKeyOf a ≠ secondKeyOf b))
    (hseen : ∀ r ∈ l, secondKeyOf r ∉ seen) :
    secondPass l seen = l := by
  induction l generalizing seen with
  | nil => rfl
  | cons x xs ih =>
    simp only [secondPass]
    rw [if_neg (hseen x (List.mem_cons_self x xs))]
    congr 1
    refine ih hpw.of_cons ?_
    intro r hr hmem
    rcases List.mem_cons.mp hmem with he | hks
    · exact List.rel_of_pairwise_cons hpw hr he.symm
    · exact hseen r (List.mem_cons_of_mem _ hr) hks

/-- C3 (counterexample): the normalization+dedup step is not idempotent:
output records carry `intentional_bye_rounds` but no raw `byes` field, so
re-running the step maps a non-null `intentional_bye_rounds` to null. -/
theorem dedup_not_idempotent_counterexample :
    (validateAndDedup [JVal.obj [("name", .str "Ann Bee"), ("byes", .arr [.int 1])]]).map
      (fun l => l.map (fun r => getField r "intentional_bye_rounds"))
      = some [JVal.str "1"] ∧
    ((validateAndDedup [JVal.obj [("name", .str "Ann Bee"), ("byes", .arr [.int 1])]]).bind
        validateAndDedup).map
      (fun l => l.map (fun r => getField r "intentional_bye_rounds"))
      = some [JVal.null] ∧
    JVal.str "1" ≠ JVal.null := by
  refine ⟨rfl, rfl, ?_⟩
  intro h
  cases h

/-- C3 (amended): the normalization+dedup step is idempotent on every
output list whose records all have null `intentional_bye_rounds`, grade
different from 0, and `fide_id` different from the empty string:
re-applying the step to such an output returns it unchanged (same
records, same field values, same order).  (On other outputs the re-run
nulls `intentional_bye_rounds` — the raw `byes` field is gone — and
re-nulls a zero grade or an empty-string `fide_id`.) -/
theorem dedup_idempotent_on_clean_outputs (ps out : List JVal)
    (h : validateAndDedup ps = some out)
    (hclean : ∀ r ∈ out,
        getField r "intentional_bye_rounds" = JVal.null ∧
        getField r "grade" ≠ JVal.int 0 ∧
        getField r "fide_id" ≠ JVal.str "") :
    validateAndDedup out = some out := by
  unfold validateAndDedup at h
  split at h
  · exact absurd h (by simp)
  case h_2 vp hvp =>
    obtain rfl : out = secondPass vp [] := (Option.some.inj h).symm
    have hsub : (secondPass vp []).Sublist vp := secondPass_sublist vp []
    obtain ⟨hpw1, _⟩ := firstPass_keys hvp
    have hpw_out := List.Pairwise.sublist hsub hpw1
    have hv : ∀ r ∈ secondPass vp [],
        ∃ flds, r = JVal.obj flds ∧ nameOk flds = true ∧
          validatedRecord flds = some r := by
      intro r hr
      obtain ⟨fields, hok, hvr⟩ := firstPass_mem hvp (hsub.subset hr)
      obtain ⟨hc1, hc2, hc3⟩ := hclean r hr
      exact validated_fixed hvr hok hc1 hc2 hc3
    have hfp2 : firstPass (secondPass vp []) [] = some (secondPass vp []) :=
      firstPass_fixed hv hpw_out (by simp)
    have hsp2 : secondPass (secondPass vp []) [] = secondPass vp [] :=
      secondPass_fixed (secondPass_keys vp []).1 (by simp)
    unfold validateAndDedup
    rw [hfp2]
    show some (secondPass (secondPass vp []) []) = some (secondPass vp [])
    rw [hsp2]

/-- Witness for the amended C3 at a concrete already-deduplicated list. -/
theorem dedup_idempotent_witness :
    validateAndDedup
      ((validateAndDedup
        [JVal.obj [("name", .str "John Smith"), ("rating", .int 1500)]]).getD [])
      = some ((validateAndDedup
        [JVal.obj [("name", .str "John Smith"), ("rating", .int 1500)]]).getD []) :=
  dedup_idempotent_on_clean_outputs
    [JVal.obj [("name", .str "John Smith"), ("rating", .int 1500)]]
    ((validateAndDedup
      [JVal.obj [("name", .str "John Smith"), ("rating", .int 1500)]]).getD [])
    rfl
    (by
      intro r hr
      cases hr with
      | head =>
        refine ⟨rfl, ?_, ?_⟩
        · intro hx
          exact JVal.noConfusion hx
        · intro hx
          exact JVal.noConfusion hx
      | tail _ hr' => cases hr')
